import Mathlib

/-!
# Verification of the Intel HEX loader in tek-firmware-updater

Shallow embedding of the Intel HEX firmware loader
(src/tek-firmware-updater.c, with the duplicated variants in
src/unnamed/part_000 and src/unnamed/part_001).  The embedding follows
the named file tek-firmware-updater.c; where the unnamed variants differ
(part_001 factors the checksum into a separate `validate_record`
function, and omits the line number from the end-of-file message) this
is noted next to the definition.

Machine integers are modelled as `Nat` (with explicit `% 256`, `% 65536`
where the C code truncates) and `Int` where C `int` values can be
negative.  Text is modelled as `List Char`; the input file is a list of
lines as delivered by `fgets`.
-/

namespace TekFirmware

/-! ## Characters and the C `sscanf` "%x" conversion

The reader parses hex fields with `sscanf(line+off, "%2x" / "%4x")`.
Per C11 7.21.6.2, a `%x` conversion first skips white-space characters
(as classified by `isspace` in the C locale), then reads the longest
prefix of at most `width` characters that is a prefix of a strtoul
base-16 subject sequence: an optional sign, an optional `0x`/`0X`
prefix, and hex digits.  If the resulting item contains no digit
(e.g. just a sign, or `0x` with the width exhausted) the conversion
fails.  A `-` sign negates the value; the value is stored through the
pointer by unsigned conversion, and for the widths used here (2 and 4)
the signed value read back by the caller equals the mathematical value,
which is how we represent it (`Int`). -/

/-- `isspace` in the C locale: space, tab, newline, vertical tab,
form feed, carriage return. -/
def isCSpace (c : Char) : Bool :=
  c == ' ' || c == '\t' || c == '\n' || c == '\x0b' || c == '\x0c' || c == '\r'

/-- Hexadecimal digit predicate used by the `%x` conversion. -/
def isHexDigitC (c : Char) : Bool :=
  (48 ≤ c.toNat && c.toNat ≤ 57) ||
  (97 ≤ c.toNat && c.toNat ≤ 102) ||
  (65 ≤ c.toNat && c.toNat ≤ 70)

/-- Value of a hexadecimal digit. -/
def hexVal (c : Char) : Nat :=
  if 48 ≤ c.toNat && c.toNat ≤ 57 then c.toNat - 48
  else if 97 ≤ c.toNat && c.toNat ≤ 102 then c.toNat - 87
  else c.toNat - 55

/-- Read up to `w` hex digits from `l`, accumulating into `acc`.
Returns the value, the number of digits consumed, and the rest. -/
def scanHexDigits : Nat → List Char → Nat → Nat × Nat × List Char
  | 0, l, acc => (acc, 0, l)
  | _ + 1, [], acc => (acc, 0, [])
  | w + 1, c :: t, acc =>
    if isHexDigitC c then
      let r := scanHexDigits w t (acc * 16 + hexVal c)
      (r.1, r.2.1 + 1, r.2.2)
    else (acc, 0, c :: t)

/-- Negate the accumulated digits value when a `-` sign was read. -/
def signVal (neg : Bool) (v : Nat) : Int :=
  if neg then -(v : Int) else (v : Int)

/-- Whether a `0x`/`0X` prefix is to be consumed: the remaining width
must admit both characters, the next two characters must be `0` and
`x`/`X`.  Greedy consumption is correct because `0x` is a prefix of a
matching sequence. -/
def scanXUsePre (w : Nat) : List Char → Bool
  | a :: c :: _ => decide (2 ≤ w) && (a == '0') && (c == 'x' || c == 'X')
  | _ => false

/-- Body of a `%x` conversion after white-space and sign handling:
`w` is the remaining field width and `l` the remaining input.  A
`0x`/`0X` prefix is consumed greedily when the width allows it; if no
digit is then read (the item is empty, a bare sign, or a bare `0x`) the
item is not a matching sequence and the conversion fails. -/
def scanXBody (neg : Bool) (w : Nat) (l : List Char) : Option (Int × List Char) :=
  if scanXUsePre w l then
    if (scanHexDigits (w - 2) (l.drop 2) 0).2.1 == 0 then none
    else some (signVal neg (scanHexDigits (w - 2) (l.drop 2) 0).1,
               (scanHexDigits (w - 2) (l.drop 2) 0).2.2)
  else
    if (scanHexDigits w l 0).2.1 == 0 then none
    else some (signVal neg (scanHexDigits w l 0).1, (scanHexDigits w l 0).2.2)

/-- Sign handling of a `%x` conversion, applied to the input after
white-space skipping: an optional `-` or `+` counts against the field
width and (for `-`) negates the value. -/
def scanPercentXAfterWs (width : Nat) : List Char → Option (Int × List Char)
  | [] => scanXBody false width []
  | c :: t =>
    if c == '-' then scanXBody true (width - 1) t
    else if c == '+' then scanXBody false (width - 1) t
    else scanXBody false width (c :: t)

/-- One `sscanf` `%x` conversion with maximum field width `width`:
skip white-space, then sign and body.  Returns the value and the
unconsumed input, or `none` on a matching failure. -/
def scanPercentX (width : Nat) (l : List Char) : Option (Int × List Char) :=
  scanPercentXAfterWs width (l.dropWhile isCSpace)

/-! ## The parsed record (struct ihex_record) -/

/-- C struct `ihex_record`.  `data` holds the parsed data bytes; the C
struct uses a fixed 256-byte array of which the first `size` entries
are initialized by the reader, so for every record the reader produces,
`size = data.length`. -/
structure IhexRecord where
  size : Nat
  addr : Nat
  type : Nat
  data : List Nat
  checksum : Nat
deriving DecidableEq

deriving instance DecidableEq for Except

/-! ## Record Reader: read_record_from_line -/

/-- The reader first strips every trailing `\n` / `\r` from the line
(the C code overwrites them with NUL and shrinks `length`). -/
def stripEol (l : List Char) : List Char :=
  (l.reverse.dropWhile (fun c => c == '\n' || c == '\r')).reverse

/-- The data-byte loop: `sscanf(line+9+2*i, "%2x", &datum)` for
`i = 0, ..., count-1`, storing `(ui8)datum`.  Fails ("Error parsing
record data") at the first conversion failure. -/
def readDataBytes (s : List Char) : Nat → Nat → Option (List Nat)
  | _, 0 => some []
  | i, k + 1 =>
    match scanPercentX 2 (s.drop (9 + 2 * i)) with
    | none => none
    | some (d, _) =>
      match readDataBytes s (i + 1) k with
      | none => none
      | some ds => some ((d % 256).toNat :: ds)

/-- The body of `read_record_from_line` (tek-firmware-updater.c lines
87-123) after the end-of-line stripping, on the stripped line `s`.
Checks, in the order of the C code: stripped length at least 11; start
code `:`; the `"%2x%4x%2x"` header scan (any conversion failing makes
`status != 3`); the total-length equation `length != 11+2*size`, where
the `int` right-hand side is converted to `size_t` for the comparison
(modelled by `emod 2^64`); the data-byte loop, whose `i < size` bound
compares `size_t` against the `int` `size`, again by `size_t`
conversion; and the checksum conversion at `line+9+2*size`.  Stored
fields are truncated exactly as the C casts do: `(ui8)` is `% 256`,
`(ui16)` is `% 65536`. -/
def read_record_stripped (s : List Char) : Except String IhexRecord :=
  let len := s.length
  if len < 11 then .error "Invalid line length"
  else if !(s.getD 0 ' ' == ':') then .error "Invalid start code"
  else
    match scanPercentX 2 (s.drop 1) with
    | none => .error "Error parsing record header"
    | some (sizeI, rest1) =>
      match scanPercentX 4 rest1 with
      | none => .error "Error parsing record header"
      | some (addrI, rest2) =>
        match scanPercentX 2 rest2 with
        | none => .error "Error parsing record header"
        | some (typeI, _) =>
          if len ≠ ((11 + 2 * sizeI) % (2 ^ 64)).toNat then
            .error "Invalid line length"
          else
            let count := (sizeI % (2 ^ 64)).toNat
            match readDataBytes s 0 count with
            | none => .error "Error parsing record data"
            | some ds =>
              match scanPercentX 2 (s.drop (9 + 2 * count)) with
              | none => .error "Error parsing record chechsum"
              | some (csI, _) =>
                .ok ⟨(sizeI % 256).toNat, (addrI % 65536).toNat,
                     (typeI % 256).toNat, ds, (csI % 256).toNat⟩

/-- `read_record_from_line`: strip the line terminator in place, then
parse the stripped line. -/
def read_record_from_line (line : List Char) : Except String IhexRecord :=
  read_record_stripped (stripEol line)

/-! ## Record Validator -/

/-- Unsigned 8-bit wrap-around addition. -/
def u8 (n : Nat) : Nat := n % 256

/-- `validate_record` (src/unnamed/part_001 lines 153-163): a `ui8` sum
of size, the high byte of the address (`record->addr >> 8` on the
16-bit field), the low byte, the type, each data byte, and the declared
checksum; the record is valid iff the wrapped sum is 0.  Every `+=`
wraps at 8 bits, written here as `u8` at each step; the `ui8`/`ui16`
fields are read modulo 256 / 65536 so the definition is total on
arbitrary `Nat` fields (records produced by the reader are already in
range).  The C loop adds `record->data[i]` for `i < record->size`; for
records produced by the reader `size = data.length`, so the fold is
over `data`.  The inline check of tek-firmware-updater.c lines 106-115
and 158, which accumulates the same bytes into `check_sum` during
parsing and then tests `(ui8)(check_sum + record.checksum) != 0`,
computes exactly this value (for the address bytes the C adds
`(ui8)(addr>>8)` of the `int` before truncation, which agrees modulo
256 with the shift of the stored 16-bit field). -/
def validate_record (r : IhexRecord) : Bool :=
  let s0 := u8 r.size
  let s1 := u8 (s0 + (r.addr % 65536) / 256)
  let s2 := u8 (s1 + u8 r.addr)
  let s3 := u8 (s2 + u8 r.type)
  let s4 := r.data.foldl (fun s d => u8 (s + u8 d)) s3
  u8 (s4 + u8 r.checksum) == 0

/-! ## Buffer Assembler and Loader Driver: load_ihex_buffer -/

/-- The error values `load_ihex_buffer` can return, structured by
which `format_error` call (or static string) produced them.  All
constructors except `readerError` embed the current 1-based
`line_number`; the reader's errors are static strings returned verbatim
(`if (error) return error;`), which carry no line number. -/
inductive LoadError where
  | readerError (msg : String)
  | invalidRecord (line : Nat)
  | addrTooHigh (line : Nat)
  | only8bit (line : Nat)
  | invalidType (line : Nat)
  | unexpectedEof (line : Nat)
  | dataAfterLast (line : Nat)
deriving DecidableEq

/-- The line number embedded in an error message, when there is one. -/
def LoadError.lineOf : LoadError → Option Nat
  | .readerError _ => none
  | .invalidRecord n => some n
  | .addrTooHigh n => some n
  | .only8bit n => some n
  | .invalidType n => some n
  | .unexpectedEof n => some n
  | .dataAfterLast n => some n

/-- Loop-local state of `load_ihex_buffer`: the destination buffer (the
caller's array, length = capacity), `highest_addr`, and
`last_record_read`. -/
structure LoadSt where
  buffer : List Nat
  highest : Nat
  lastRead : Bool
deriving DecidableEq

/-- What one call of `load_ihex_buffer` leaves behind: the returned
error (`none` on success), the final buffer contents, and the final
value of the in/out `*buffer_sz` (left at the capacity on every error
return, overwritten with `highest_addr` on success). -/
structure CallResult where
  err : Option LoadError
  buffer : List Nat
  bufferSz : Nat
deriving DecidableEq

/-- The data-record write loop: `buffer[record.addr+i] = record.data[i]`
for `i < record.size`, one `List.set` per byte. -/
def writeBytesLoop (buf : List Nat) (a : Nat) : List Nat → List Nat
  | [] => buf
  | d :: ds => writeBytesLoop (buf.set a d) (a + 1) ds

/-- Write a data record into the buffer.  The C loop runs `record.size`
times reading `record.data[i]`; records produced by the reader have
`size = data.length`, so the bytes written are `data.take size`. -/
def writeRecData (buf : List Nat) (r : IhexRecord) : List Nat :=
  writeBytesLoop buf r.addr (r.data.take r.size)

/-- The `switch (record.type)` dispatch on a validated record
(tek-firmware-updater.c lines 162-185).  `cap` is `*buffer_sz` (still
the caller's capacity at this point), `n` the current line number.
Type 0: `end_addr = record.addr + record.size`; fail when
`end_addr >= *buffer_sz` (strict exclusive bound), otherwise raise
`highest_addr` if exceeded and copy the data bytes.  Type 1: set
`last_record_read`.  Types 2-5: unsupported; anything else: invalid. -/
def processRecord (cap n : Nat) (st : LoadSt) (r : IhexRecord) :
    Except LoadError LoadSt :=
  if r.type = 0 then
    let endAddr := r.addr + r.size
    if cap ≤ endAddr then .error (.addrTooHigh n)
    else
      .ok ⟨writeRecData st.buffer r,
           if st.highest < endAddr then endAddr else st.highest,
           st.lastRead⟩
  else if r.type = 1 then .ok ⟨st.buffer, st.highest, true⟩
  else if r.type = 2 ∨ r.type = 3 ∨ r.type = 4 ∨ r.type = 5 then
    .error (.only8bit n)
  else .error (.invalidType n)

/-- The read loop of `load_ihex_buffer` (tek-firmware-updater.c lines
136-186).  `cap` is the incoming `*buffer_sz`, `ln` the number of lines
already consumed (`line_number` is `ln + 1` in the iteration that
handles the next line).  Running out of lines is `fgets` returning NULL
with `feof`: success if `last_record_read`, else the unexpected
end-of-file error (part_001 returns this one without the line number).
A line obtained after the last record is "Data after last record".
Otherwise the line flows through the reader, the checksum test, and the
type dispatch; every error return leaves `*buffer_sz` at `cap`, success
stores `highest_addr` into it. -/
def loadAux (cap : Nat) : LoadSt → Nat → List (List Char) → CallResult
  | st, ln, [] =>
    if st.lastRead then ⟨none, st.buffer, st.highest⟩
    else ⟨some (.unexpectedEof (ln + 1)), st.buffer, cap⟩
  | st, ln, l :: rest =>
    if st.lastRead then ⟨some (.dataAfterLast (ln + 1)), st.buffer, cap⟩
    else
      match read_record_from_line l with
      | .error msg => ⟨some (.readerError msg), st.buffer, cap⟩
      | .ok r =>
        if validate_record r then
          match processRecord cap (ln + 1) st r with
          | .error e => ⟨some e, st.buffer, cap⟩
          | .ok st2 => loadAux cap st2 (ln + 1) rest
        else ⟨some (.invalidRecord (ln + 1)), st.buffer, cap⟩

/-- `load_ihex_buffer`: `line_number = 0`, `highest_addr = 0`,
`last_record_read = false`, then the loop.  `buffer` is the caller's
array and `bufferSz` the incoming `*buffer_sz` (its capacity). -/
def load_ihex_buffer (lines : List (List Char)) (buffer : List Nat)
    (bufferSz : Nat) : CallResult :=
  loadAux bufferSz ⟨buffer, 0, false⟩ 0 lines

/-! ## Claim-side definitions (from the wording of the specification) -/

/-- Modelled from the spec wording of claim C3 (spec section 4.1): a
stripped line is well formed exactly when it is at least 11 characters,
starts with `:`, its next 8 characters are hex digits, its total length
is exactly `11 + 2*size` for the size decoded from characters 1-2, and
every remaining character (the data-byte pairs and the final checksum
pair) is a hex digit. -/
def plainLineOk (s : List Char) : Bool :=
  decide (11 ≤ s.length) && (s.getD 0 ' ' == ':') &&
  ((s.take 9).drop 1).all isHexDigitC &&
  (s.length == 11 + 2 * (hexVal (s.getD 1 ' ') * 16 + hexVal (s.getD 2 ' '))) &&
  (s.drop 9).all isHexDigitC

/-- The contribution of one input line to the final `highest_addr`: the
end address of the data record it parses to, and 0 for anything else
(claim-side rendering used to characterise the reported used length). -/
def lineDataEnd (l : List Char) : Nat :=
  match read_record_from_line l with
  | .ok r => if r.type = 0 then r.addr + r.size else 0
  | .error _ => 0

/-- A line that the loader processes as an in-range, checksum-valid
data record (used as a hypothesis by the driver-level theorems). -/
def lineOkData (cap : Nat) (l : List Char) : Prop :=
  ∃ r, read_record_from_line l = .ok r ∧ validate_record r = true ∧
    r.type = 0 ∧ r.addr + r.size < cap

/-- The value of a run of hex digits, accumulated most significant
first (the claim-side decoding of a fixed-width hex field). -/
def hexAccList (acc : Nat) (cs : List Char) : Nat :=
  cs.foldl (fun a c => a * 16 + hexVal c) acc

/-- Modelled from the spec wording of claim C5 ("highest address+1
written by any data record"): the highest address+1 a line actually
writes.  A data record of size 0 writes no byte, so it contributes 0
here (whereas the code raises `highest_addr` to its end address). -/
def lineWrittenEnd (l : List Char) : Nat :=
  match read_record_from_line l with
  | .ok r => if r.type = 0 ∧ 0 < r.size then r.addr + r.size else 0
  | .error _ => 0

/-- A record that passes the Reader but fails the Validator or the
Assembler: bad checksum, out-of-range data record, unsupported
extended-addressing type, or unknown type. -/
def recordFailsPostRead (cap : Nat) (r : IhexRecord) : Prop :=
  validate_record r = false ∨
  (validate_record r = true ∧
    ((r.type = 0 ∧ cap ≤ r.addr + r.size) ∨ r.type = 2 ∨ r.type = 3 ∨
      r.type = 4 ∨ r.type = 5 ∨ 6 ≤ r.type))

/-- The line-number payload of the returned error, when the call
failed: `none` when the call succeeded, `some none` when it failed with
an error that carries no line number, `some (some n)` when it failed
with an error carrying line number `n`. -/
def CallResult.errLine (c : CallResult) : Option (Option Nat) :=
  c.err.map LoadError.lineOf

/-! ## Helper lemmas -/

theorem u8_def (n : Nat) : u8 n = n % 256 := rfl

/-- The 8-bit wrap-around fold over the data bytes agrees, modulo 256,
with the plain sum. -/
theorem foldl_u8_mod (l : List Nat) :
    ∀ s : Nat, (l.foldl (fun s d => u8 (s + u8 d)) s) % 256 = (s + l.sum) % 256 := by
  induction l with
  | nil => intro s; simp
  | cons d t ih =>
    intro s
    rw [List.foldl_cons, List.sum_cons, ih (u8 (s + u8 d))]
    simp only [u8_def]
    omega

theorem writeBytesLoop_length (ds : List Nat) :
    ∀ buf a, (writeBytesLoop buf a ds).length = buf.length := by
  induction ds with
  | nil => intro buf a; rfl
  | cons d t ih =>
    intro buf a
    rw [writeBytesLoop, ih, List.length_set]

theorem writeBytesLoop_getD_outside (ds : List Nat) :
    ∀ buf a j, j < a ∨ a + ds.length ≤ j →
      (writeBytesLoop buf a ds).getD j 0 = buf.getD j 0 := by
  induction ds with
  | nil => intro buf a j _; rfl
  | cons d t ih =>
    intro buf a j h
    simp only [List.length_cons] at h
    rw [writeBytesLoop, ih (buf.set a d) (a + 1) j (by omega),
        List.getD_eq_getElem?_getD, List.getD_eq_getElem?_getD,
        List.getElem?_set_ne (show a ≠ j by omega)]

theorem writeBytesLoop_getD_at (ds : List Nat) :
    ∀ buf a i, i < ds.length → a + ds.length ≤ buf.length →
      (writeBytesLoop buf a ds).getD (a + i) 0 = ds.getD i 0 := by
  induction ds with
  | nil => intro buf a i hi _; simp at hi
  | cons d t ih =>
    intro buf a i hi hlen
    simp only [List.length_cons] at hi hlen
    rw [writeBytesLoop]
    cases i with
    | zero =>
      rw [writeBytesLoop_getD_outside t (buf.set a d) (a + 1) (a + 0) (by omega)]
      simp only [List.getD_eq_getElem?_getD, Nat.add_zero]
      rw [List.getElem?_set_self (show a < buf.length by omega)]
      simp
    | succ k =>
      rw [show a + (k + 1) = (a + 1) + k by omega,
          ih (buf.set a d) (a + 1) k (by omega) (by rw [List.length_set]; omega)]
      simp [List.getD_eq_getElem?_getD]

/-! ## Claim C1: the Validator accepts iff the 8-bit sum cancels -/

/-- Claim C1: for every record, the Validator accepts the record if and
only if the unsigned 8-bit sum of `size`, the high byte of the address,
the low byte of the address, `type`, every data byte, and the declared
checksum byte is 0 modulo 256 (otherwise the driver signals the
checksum-mismatch "Invalid record" error). -/
theorem claim_C1 (r : IhexRecord) :
    validate_record r = true ↔
      (r.size + r.addr % 65536 / 256 + r.addr % 256 + r.type + r.data.sum
        + r.checksum) % 256 = 0 := by
  have h := foldl_u8_mod r.data
      (u8 (u8 (u8 (u8 r.size + r.addr % 65536 / 256) + u8 r.addr) + u8 r.type))
  unfold validate_record
  simp only [beq_iff_eq, u8_def] at h ⊢
  generalize hF :
      List.foldl (fun s d => u8 (s + u8 d))
        (u8 (u8 (u8 (u8 r.size + r.addr % 65536 / 256) + u8 r.addr) + u8 r.type))
        r.data = F at h
  simp only [u8_def] at hF
  rw [hF]
  generalize r.data.sum = t at h
  have haddr : r.addr % 65536 / 256 < 256 := by omega
  omega

/-! ## Claim C2: the address bound is strict and exclusive -/

/-- Claim C2: for a validated data record (type 0) with
`end = address + size`, the Assembler fails with the address-out-of-
range error exactly when `end ≥ capacity` (so `end = capacity` is
already rejected), and succeeds exactly when `end < capacity`. -/
theorem claim_C2 (cap n : Nat) (st : LoadSt) (r : IhexRecord)
    (ht : r.type = 0) (_hv : validate_record r = true) :
    (processRecord cap n st r = .error (.addrTooHigh n) ↔ cap ≤ r.addr + r.size)
    ∧ ((processRecord cap n st r).isOk = true ↔ r.addr + r.size < cap) := by
  clear _hv
  unfold processRecord
  rw [if_pos ht]
  by_cases h : cap ≤ r.addr + r.size
  · rw [if_pos h]
    constructor
    · exact ⟨fun _ => h, fun _ => rfl⟩
    · constructor
      · intro hk
        simp [Except.isOk, Except.toBool] at hk
      · intro hk
        exact absurd hk (by omega)
  · rw [if_neg h]
    constructor
    · constructor
      · intro he
        simp at he
      · intro hk
        exact absurd hk h
    · exact ⟨fun _ => by omega, fun _ => rfl⟩

/-! ## Claim C4: data records write exactly their bytes, nothing else -/

/-- Claim C4: an in-range data record (`address + size < capacity`) is
accepted, writes exactly its `size` data bytes at
`address .. address+size-1` in record order, and changes no other
buffer position; an out-of-range data record makes the loader fail
with the address-out-of-range error and the buffer is returned exactly
as it was (no partial write). -/
theorem claim_C4 (cap n : Nat) (st : LoadSt) (r : IhexRecord)
    (ht : r.type = 0) (hlen : r.size = r.data.length) :
    (r.addr + r.size < cap →
      processRecord cap n st r =
        .ok ⟨writeRecData st.buffer r,
             if st.highest < r.addr + r.size then r.addr + r.size else st.highest,
             st.lastRead⟩
      ∧ (st.buffer.length = cap →
          ∀ i, i < r.size →
            (writeRecData st.buffer r).getD (r.addr + i) 0 = r.data.getD i 0)
      ∧ (∀ j, j < r.addr ∨ r.addr + r.size ≤ j →
          (writeRecData st.buffer r).getD j 0 = st.buffer.getD j 0))
    ∧ (cap ≤ r.addr + r.size →
        ∀ l rest ln, read_record_from_line l = .ok r →
          validate_record r = true → st.lastRead = false →
          loadAux cap st ln (l :: rest) =
            ⟨some (.addrTooHigh (ln + 1)), st.buffer, cap⟩) := by
  have htake : r.data.take r.size = r.data := by
    rw [hlen, List.take_length]
  constructor
  · intro hin
    refine ⟨?_, ?_, ?_⟩
    · unfold processRecord
      rw [if_pos ht, if_neg (by omega)]
    · intro hcap i hi
      unfold writeRecData
      rw [htake]
      exact writeBytesLoop_getD_at r.data st.buffer r.addr i (by omega) (by omega)
    · intro j hj
      unfold writeRecData
      rw [htake]
      exact writeBytesLoop_getD_outside r.data st.buffer r.addr j (by omega)
  · intro hout l rest ln hread hv hlast
    rw [loadAux, hlast]
    simp only [Bool.false_eq_true, if_false, hread, hv, if_true]
    unfold processRecord
    rw [if_pos ht, if_pos hout]

/-- Witness for C2: the boundary record with `address + size` equal to
the capacity (address 4, size 0, capacity 4, valid checksum 0xFC) is
rejected with the address error. -/
theorem claim_C2_witness :
    processRecord 4 1 ⟨[0, 0, 0, 0], 0, false⟩ ⟨0, 4, 0, [], 252⟩ =
      .error (.addrTooHigh 1) :=
  ((claim_C2 4 1 ⟨[0, 0, 0, 0], 0, false⟩ ⟨0, 4, 0, [], 252⟩ rfl
      (by decide)).1).mpr (by decide)

/-- Witness for C4: a one-byte record at address 1 in a capacity-4
buffer writes byte 171 at position 1 and leaves position 0 alone. -/
theorem claim_C4_witness :
    (writeRecData [9, 9, 9, 9] ⟨1, 1, 0, [171], 83⟩).getD (1 + 0) 0 =
      [171].getD 0 0 ∧
    (writeRecData [9, 9, 9, 9] ⟨1, 1, 0, [171], 83⟩).getD 0 0 =
      [9, 9, 9, 9].getD 0 0 :=
  ⟨((claim_C4 4 1 ⟨[9, 9, 9, 9], 0, false⟩ ⟨1, 1, 0, [171], 83⟩ rfl rfl).1
      (by decide)).2.1 (by decide) 0 (by decide),
   ((claim_C4 4 1 ⟨[9, 9, 9, 9], 0, false⟩ ⟨1, 1, 0, [171], 83⟩ rfl rfl).1
      (by decide)).2.2 0 (by decide)⟩

/-! ## Character-class lemmas for the scanner -/

theorem hexVal_le_15 (c : Char) (h : isHexDigitC c = true) : hexVal c ≤ 15 := by
  unfold isHexDigitC at h
  simp only [Bool.or_eq_true, Bool.and_eq_true, decide_eq_true_eq] at h
  unfold hexVal
  split_ifs with h1 h2 <;>
    simp only [Bool.and_eq_true, decide_eq_true_eq] at * <;> omega

/-- A hex digit is not one of the characters the `%x` conversion treats
specially before the digits. -/
theorem hexChar_ne (c : Char) (h : isHexDigitC c = true) (d : Char)
    (hd : isHexDigitC d = false) : (c == d) = false := by
  apply beq_eq_false_iff_ne.mpr
  intro e
  rw [e, hd] at h
  simp at h

theorem hexChar_not_space (c : Char) (h : isHexDigitC c = true) :
    isCSpace c = false := by
  unfold isCSpace
  rw [hexChar_ne c h ' ' (by decide), hexChar_ne c h '\t' (by decide),
      hexChar_ne c h '\n' (by decide), hexChar_ne c h '\x0b' (by decide),
      hexChar_ne c h '\x0c' (by decide), hexChar_ne c h '\r' (by decide)]
  rfl

/-! ## The scanner on runs of hex digits -/

/-- On an input whose first `w` characters are hex digits, the digit
reader consumes exactly `w` characters. -/
theorem scanHexDigits_run (w : Nat) :
    ∀ (l : List Char) (acc : Nat),
      (∀ c ∈ l.take w, isHexDigitC c = true) → w ≤ l.length →
      scanHexDigits w l acc = (hexAccList acc (l.take w), w, l.drop w) := by
  induction w with
  | zero => intro l acc _ _; simp [scanHexDigits, hexAccList]
  | succ v ih =>
    intro l acc hhex hlen
    cases l with
    | nil => simp at hlen
    | cons c t =>
      simp only [List.take_succ_cons] at hhex
      have hc : isHexDigitC c = true := hhex c (List.mem_cons_self c _)
      have ht : ∀ x ∈ t.take v, isHexDigitC x = true := by
        intro x hx
        exact hhex x (List.mem_cons_of_mem c hx)
      rw [scanHexDigits, if_pos hc,
          ih t (acc * 16 + hexVal c) ht (by simpa using hlen)]
      simp [hexAccList, List.take_succ_cons, List.drop_succ_cons]

/-- Every count the digit reader reports is at most the width, and the
value is bounded by the digits read. -/
theorem scanHexDigits_bound (w : Nat) :
    ∀ (l : List Char) (acc : Nat),
      (scanHexDigits w l acc).2.1 ≤ w ∧
      (scanHexDigits w l acc).1 < (acc + 1) * 16 ^ (scanHexDigits w l acc).2.1 := by
  induction w with
  | zero => intro l acc; simp [scanHexDigits]
  | succ v ih =>
    intro l acc
    cases l with
    | nil => simp [scanHexDigits]
    | cons c t =>
      rw [scanHexDigits]
      by_cases hc : isHexDigitC c = true
      · rw [if_pos hc]
        have h := ih t (acc * 16 + hexVal c)
        have hv15 := hexVal_le_15 c hc
        refine ⟨by simpa using h.1, ?_⟩
        simp only
        calc (scanHexDigits v t (acc * 16 + hexVal c)).1
            < (acc * 16 + hexVal c + 1) * 16 ^ (scanHexDigits v t (acc * 16 + hexVal c)).2.1 := h.2
          _ ≤ ((acc + 1) * 16) * 16 ^ (scanHexDigits v t (acc * 16 + hexVal c)).2.1 := by
              apply Nat.mul_le_mul_right
              omega
          _ = (acc + 1) * 16 ^ ((scanHexDigits v t (acc * 16 + hexVal c)).2.1 + 1) := by
              rw [Nat.pow_succ]
              ring
      · rw [if_neg hc]
        simp

/-- A `%x` conversion applied where the next `w` characters are hex
digits (and the width is at least 2, as in all four call sites): it
consumes exactly the `w` digits and returns their value. -/
theorem scanPercentX_hexRun (w : Nat) (l : List Char) (hw : 2 ≤ w)
    (hlen : w ≤ l.length) (hhex : ∀ c ∈ l.take w, isHexDigitC c = true) :
    scanPercentX w l = some (((hexAccList 0 (l.take w) : Nat) : Int), l.drop w) := by
  obtain ⟨c0, l0, rfl⟩ : ∃ c0 l0, l = c0 :: l0 := by
    cases l with
    | nil => simp at hlen; omega
    | cons a b => exact ⟨a, b, rfl⟩
  obtain ⟨c1, t, rfl⟩ : ∃ c1 t, l0 = c1 :: t := by
    cases l0 with
    | nil => simp at hlen; omega
    | cons a b => exact ⟨a, b, rfl⟩
  have htake : (c0 :: c1 :: t).take w = c0 :: c1 :: t.take (w - 2) := by
    obtain ⟨w2, rfl⟩ : ∃ w2, w = w2 + 2 := ⟨w - 2, by omega⟩
    simp [List.take_succ_cons]
  have hc0 : isHexDigitC c0 = true := by
    apply hhex; rw [htake]; exact List.mem_cons_self _ _
  have hc1 : isHexDigitC c1 = true := by
    apply hhex; rw [htake]; exact List.mem_cons_of_mem _ (List.mem_cons_self _ _)
  have hdw : (c0 :: c1 :: t).dropWhile isCSpace = c0 :: c1 :: t := by
    rw [List.dropWhile_cons, hexChar_not_space c0 hc0]; simp
  have hup : scanXUsePre w (c0 :: c1 :: t) = false := by
    simp only [scanXUsePre]
    rw [hexChar_ne c1 hc1 'x' (by decide), hexChar_ne c1 hc1 'X' (by decide)]
    simp
  have hrun := scanHexDigits_run w (c0 :: c1 :: t) 0 hhex hlen
  have hne : ((scanHexDigits w (c0 :: c1 :: t) 0).2.1 == 0) = false := by
    rw [hrun]
    exact beq_eq_false_iff_ne.mpr (show w ≠ 0 by omega)
  unfold scanPercentX
  rw [hdw]
  simp only [scanPercentXAfterWs]
  rw [hexChar_ne c0 hc0 '-' (by decide), hexChar_ne c0 hc0 '+' (by decide)]
  simp only [Bool.false_eq_true, if_false]
  unfold scanXBody
  rw [hup]
  simp only [Bool.false_eq_true, if_false, hne, hrun, signVal]
  have hw0 : (w == 0) = false := beq_eq_false_iff_ne.mpr (by omega)
  rw [hw0]
  simp

/-- Any successful `%x` conversion yields a value bounded by the field
width: nonnegative and below `16 ^ width`, or, after a minus sign,
above `-16 ^ (width - 1)`. -/
theorem scanXBody_bound (neg : Bool) (w : Nat) (l : List Char) (v : Int)
    (rest : List Char) (h : scanXBody neg w l = some (v, rest)) :
    (neg = false → 0 ≤ v ∧ v < 16 ^ w) ∧
    (neg = true → -(16 ^ w : Int) < v ∧ v ≤ 0) := by
  have key : ∀ (w0 : Nat) (l0 : List Char), w0 ≤ w →
      (if (scanHexDigits w0 l0 0).2.1 == 0 then none
       else some (signVal neg (scanHexDigits w0 l0 0).1,
                  (scanHexDigits w0 l0 0).2.2)) = some (v, rest) →
      (neg = false → 0 ≤ v ∧ v < 16 ^ w) ∧
      (neg = true → -(16 ^ w : Int) < v ∧ v ≤ 0) := by
    intro w0 l0 hw0 h0
    by_cases hz : ((scanHexDigits w0 l0 0).2.1 == 0) = true
    · rw [if_pos hz] at h0; simp at h0
    · rw [if_neg hz] at h0
      have hb := scanHexDigits_bound w0 l0 0
      have hlt : (scanHexDigits w0 l0 0).1 < 16 ^ w := by
        calc (scanHexDigits w0 l0 0).1
            < (0 + 1) * 16 ^ (scanHexDigits w0 l0 0).2.1 := hb.2
          _ ≤ 16 ^ w := by
              simpa using Nat.pow_le_pow_right (by norm_num) (le_trans hb.1 hw0)
      have hv : v = signVal neg (scanHexDigits w0 l0 0).1 := by
        simp only [Option.some.injEq, Prod.mk.injEq] at h0
        exact h0.1.symm
      constructor
      · intro hneg
        rw [hv, signVal, hneg]
        simp only [Bool.false_eq_true, if_false]
        exact ⟨Int.ofNat_nonneg _, by exact_mod_cast hlt⟩
      · intro hneg
        rw [hv, signVal, hneg]
        simp only [if_true]
        constructor
        · have : ((scanHexDigits w0 l0 0).1 : Int) < (16 ^ w : Nat) := by
            exact_mod_cast hlt
          push_cast at this ⊢
          omega
        · omega
  unfold scanXBody at h
  by_cases hp : scanXUsePre w l = true
  · rw [if_pos hp] at h
    exact key (w - 2) (l.drop 2) (by omega) h
  · rw [if_neg hp] at h
    exact key w l (le_refl w) h

/-- A `%2x` conversion can only produce values in `[-15, 255]`. -/
theorem scanPercentX_two_bound (l : List Char) (v : Int) (rest : List Char)
    (h : scanPercentX 2 l = some (v, rest)) : -15 ≤ v ∧ v ≤ 255 := by
  unfold scanPercentX at h
  cases hdw : l.dropWhile isCSpace with
  | nil =>
    rw [hdw] at h
    simp only [scanPercentXAfterWs] at h
    have hb := (scanXBody_bound false 2 [] v rest h).1 rfl
    norm_num at hb
    omega
  | cons c t =>
    rw [hdw] at h
    simp only [scanPercentXAfterWs] at h
    by_cases hm : (c == '-') = true
    · rw [if_pos hm] at h
      have hb := (scanXBody_bound true (2 - 1) t v rest h).2 rfl
      norm_num at hb
      omega
    · rw [if_neg hm] at h
      by_cases hpl : (c == '+') = true
      · rw [if_pos hpl] at h
        have hb := (scanXBody_bound false (2 - 1) t v rest h).1 rfl
        norm_num at hb
        omega
      · rw [if_neg hpl] at h
        have hb := (scanXBody_bound false 2 (c :: t) v rest h).1 rfl
        norm_num at hb
        omega

/-- The data loop succeeds, producing `k` bytes, whenever all the
characters from offset 9 on are hex digits and the line is long
enough. -/
theorem readDataBytes_run (s : List Char) :
    ∀ (k i : Nat), (∀ c ∈ s.drop 9, isHexDigitC c = true) →
      9 + 2 * i + 2 * k + 2 ≤ s.length →
      ∃ ds, readDataBytes s i k = some ds ∧ ds.length = k := by
  intro k
  induction k with
  | zero => intro i _ _; exact ⟨[], rfl, rfl⟩
  | succ m ih =>
    intro i hhex hlen
    have hhex2 : ∀ c ∈ (s.drop (9 + 2 * i)).take 2, isHexDigitC c = true := by
      intro c hc
      apply hhex
      have hdd : s.drop (9 + 2 * i) = (s.drop 9).drop (2 * i) := by
        rw [List.drop_drop]
      rw [hdd] at hc
      exact List.mem_of_mem_drop (List.mem_of_mem_take hc)
    have hscan := scanPercentX_hexRun 2 (s.drop (9 + 2 * i)) (by norm_num)
        (by rw [List.length_drop]; omega) hhex2
    obtain ⟨ds, hds, hdlen⟩ := ih (i + 1) hhex (by omega)
    refine ⟨((((hexAccList 0 ((s.drop (9 + 2 * i)).take 2) : Nat) : Int)
        % 256).toNat :: ds), ?_, by simp [hdlen]⟩
    show readDataBytes s i (m + 1) = _
    simp only [readDataBytes, hscan, hds]

/-- Direction 1 of the reader characterisation: a stripped line that is
plainly well formed (in the sense of the specification) parses into a
record whose size is the decoded size field and whose data has exactly
that many bytes. -/
theorem read_plain_ok (s : List Char) (h : plainLineOk s = true) :
    ∃ r, read_record_stripped s = .ok r ∧
      r.size = hexVal (s.getD 1 ' ') * 16 + hexVal (s.getD 2 ' ') ∧
      r.data.length = r.size := by
  unfold plainLineOk at h
  simp only [Bool.and_eq_true, decide_eq_true_eq, beq_iff_eq, List.all_eq_true] at h
  obtain ⟨⟨⟨⟨h1, h2⟩, h3⟩, h4⟩, h5⟩ := h
  rcases s with _ | ⟨c0, s⟩
  · simp at h1
  rcases s with _ | ⟨c1, s⟩
  · simp at h1
  rcases s with _ | ⟨c2, s⟩
  · simp at h1
  rcases s with _ | ⟨c3, s⟩
  · simp at h1
  rcases s with _ | ⟨c4, s⟩
  · simp at h1
  rcases s with _ | ⟨c5, s⟩
  · simp at h1
  rcases s with _ | ⟨c6, s⟩
  · simp at h1
  rcases s with _ | ⟨c7, s⟩
  · simp at h1
  rcases s with _ | ⟨c8, rest⟩
  · simp at h1
  have hc0 : c0 = ':' := h2
  subst hc0
  have hx : ∀ x ∈ [c1, c2, c3, c4, c5, c6, c7, c8], isHexDigitC x = true := h3
  have hx1 := hx c1 (by simp)
  have hx2 := hx c2 (by simp)
  have hx3 := hx c3 (by simp)
  have hx4 := hx c4 (by simp)
  have hx5 := hx c5 (by simp)
  have hx6 := hx c6 (by simp)
  have hx7 := hx c7 (by simp)
  have hx8 := hx c8 (by simp)
  have hrest : ∀ x ∈ rest, isHexDigitC x = true := h5
  have hv255 : hexVal c1 * 16 + hexVal c2 ≤ 255 := by
    have b1 := hexVal_le_15 c1 hx1
    have b2 := hexVal_le_15 c2 hx2
    omega
  simp only [List.getD_cons_succ, List.getD_cons_zero, List.length_cons] at h4
  have hs1 : scanPercentX 2
      (List.drop 1 (':' :: c1 :: c2 :: c3 :: c4 :: c5 :: c6 :: c7 :: c8 :: rest)) =
      some (((hexVal c1 * 16 + hexVal c2 : Nat) : Int),
            c3 :: c4 :: c5 :: c6 :: c7 :: c8 :: rest) := by
    have hr := scanPercentX_hexRun 2 (c1 :: c2 :: c3 :: c4 :: c5 :: c6 :: c7 :: c8 :: rest)
        (by norm_num) (by simp) (by
          intro x hx'
          have hx2' : x = c1 ∨ x = c2 := by simpa using hx'
          rcases hx2' with rfl | rfl
          · exact hx1
          · exact hx2)
    simpa [hexAccList] using hr
  have hs2 : scanPercentX 4 (c3 :: c4 :: c5 :: c6 :: c7 :: c8 :: rest) =
      some (((hexAccList 0 [c3, c4, c5, c6] : Nat) : Int), c7 :: c8 :: rest) := by
    have hr := scanPercentX_hexRun 4 (c3 :: c4 :: c5 :: c6 :: c7 :: c8 :: rest)
        (by norm_num) (by simp) (by
          intro x hx'
          have hx4' : x = c3 ∨ x = c4 ∨ x = c5 ∨ x = c6 := by simpa using hx'
          rcases hx4' with rfl | rfl | rfl | rfl
          · exact hx3
          · exact hx4
          · exact hx5
          · exact hx6)
    simpa using hr
  have hs3 : scanPercentX 2 (c7 :: c8 :: rest) =
      some (((hexAccList 0 [c7, c8] : Nat) : Int), rest) := by
    have hr := scanPercentX_hexRun 2 (c7 :: c8 :: rest)
        (by norm_num) (by simp) (by
          intro x hx'
          have hx2' : x = c7 ∨ x = c8 := by simpa using hx'
          rcases hx2' with rfl | rfl
          · exact hx7
          · exact hx8)
    simpa using hr
  have hszcast : ((11 + 2 * ((hexVal c1 * 16 + hexVal c2 : Nat) : Int)) % 2 ^ 64).toNat
      = 11 + 2 * (hexVal c1 * 16 + hexVal c2) := by
    norm_num
    omega
  have hcount : (((hexVal c1 * 16 + hexVal c2 : Nat) : Int) % 2 ^ 64).toNat
      = hexVal c1 * 16 + hexVal c2 := by
    norm_num
    omega
  obtain ⟨ds, hds, hdslen⟩ := readDataBytes_run
      (':' :: c1 :: c2 :: c3 :: c4 :: c5 :: c6 :: c7 :: c8 :: rest)
      (hexVal c1 * 16 + hexVal c2) 0
      (by intro x hx'; exact hrest x hx')
      (by simp only [List.length_cons]; omega)
  have hdrop9 : List.drop (9 + 2 * (hexVal c1 * 16 + hexVal c2))
      (':' :: c1 :: c2 :: c3 :: c4 :: c5 :: c6 :: c7 :: c8 :: rest) =
      rest.drop (2 * (hexVal c1 * 16 + hexVal c2)) := by
    rw [show 9 + 2 * (hexVal c1 * 16 + hexVal c2)
        = 2 * (hexVal c1 * 16 + hexVal c2) + 9 by ring]
    simp [List.drop_succ_cons]
  have hs4 := scanPercentX_hexRun 2 (rest.drop (2 * (hexVal c1 * 16 + hexVal c2)))
      (by norm_num)
      (by rw [List.length_drop]; omega)
      (by
        intro x hx'
        exact hrest x (List.mem_of_mem_drop (List.mem_of_mem_take hx')))
  refine ⟨⟨(((hexVal c1 * 16 + hexVal c2 : Nat) : Int) % 256).toNat,
           (((hexAccList 0 [c3, c4, c5, c6] : Nat) : Int) % 65536).toNat,
           (((hexAccList 0 [c7, c8] : Nat) : Int) % 256).toNat,
           ds,
           (((hexAccList 0 ((rest.drop (2 * (hexVal c1 * 16 + hexVal c2))).take 2) : Nat) : Int)
             % 256).toNat⟩, ?_, ?_, ?_⟩
  · simp only [read_record_stripped]
    rw [if_neg (show ¬ ((':' :: c1 :: c2 :: c3 :: c4 :: c5 :: c6 :: c7 :: c8 :: rest).length < 11)
          by simp only [List.length_cons]; omega)]
    rw [if_neg (show ¬ ((!((':' :: c1 :: c2 :: c3 :: c4 :: c5 :: c6 :: c7 :: c8 :: rest).getD 0 ' '
          == ':')) = true) by simp)]
    simp only [hs1, hs2, hs3]
    rw [hszcast]
    rw [if_neg (show ¬ ((':' :: c1 :: c2 :: c3 :: c4 :: c5 :: c6 :: c7 :: c8 :: rest).length
          ≠ 11 + 2 * (hexVal c1 * 16 + hexVal c2)) by
        simp only [List.length_cons, ne_eq]
        omega)]
    rw [hcount]
    simp only [hds, hdrop9, hs4]
  · show (((hexVal c1 * 16 + hexVal c2 : Nat) : Int) % 256).toNat
        = hexVal ((':' :: c1 :: c2 :: c3 :: c4 :: c5 :: c6 :: c7 :: c8 :: rest).getD 1 ' ')
            * 16
          + hexVal ((':' :: c1 :: c2 :: c3 :: c4 :: c5 :: c6 :: c7 :: c8 :: rest).getD 2 ' ')
    simp only [List.getD_cons_succ, List.getD_cons_zero]
    omega
  · show ds.length = (((hexVal c1 * 16 + hexVal c2 : Nat) : Int) % 256).toNat
    rw [hdslen]
    omega

/-- The data loop produces exactly as many bytes as it was asked for. -/
theorem readDataBytes_length (s : List Char) :
    ∀ k i ds, readDataBytes s i k = some ds → ds.length = k := by
  intro k
  induction k with
  | zero =>
    intro i ds h
    simp only [readDataBytes, Option.some.injEq] at h
    rw [← h]
    rfl
  | succ m ih =>
    intro i ds h
    simp only [readDataBytes] at h
    split at h
    · simp at h
    · split at h
      · simp at h
      · rename_i hinner
        simp only [Option.some.injEq] at h
        rw [← h]
        simp [ih (i + 1) _ hinner]

/-- Direction 2 of the reader characterisation: any line that parses
(of realistic length: `fgets` delivers at most 520 characters) is at
least 11 characters after stripping, starts with `:`, has total length
exactly `11 + 2 * size` for the parsed size, and carries exactly `size`
data bytes. -/
theorem read_ok_necc (s : List Char) (r : IhexRecord) (hle : s.length ≤ 520)
    (h : read_record_stripped s = .ok r) :
    11 ≤ s.length ∧ s.getD 0 ' ' = ':' ∧ s.length = 11 + 2 * r.size ∧
    r.data.length = r.size := by
  simp only [read_record_stripped] at h
  repeat' split at h
  all_goals try simp at h
  rename_i hlen11 hstart x1 sizeI rest1 hscan1 x2 addrI rest2 hscan2 x3 typeI
      rest3 hscan3 hlenok x4 ds hds x5 csI rest4 hscan4
  clear x1 x2 x3 x4 x5
  have hstart2 : s.getD 0 ' ' = ':' := by
    have hb : (s.getD 0 ' ' == ':') = true := by
      revert hstart
      cases s.getD 0 ' ' == ':' <;> simp
    exact beq_iff_eq.mp hb
  have hbound := scanPercentX_two_bound (s.drop 1) sizeI rest1 hscan1
  have hlen2 : s.length = ((11 + 2 * sizeI) % 2 ^ 64).toNat := not_not.mp hlenok
  have key : 0 ≤ sizeI ∧ s.length = 11 + 2 * sizeI.toNat := by
    norm_num at hlen2
    omega
  have hsz : r.size = sizeI.toNat := by
    rw [← h]
    show (sizeI % 256).toNat = sizeI.toNat
    omega
  have hdl := readDataBytes_length s ((sizeI % 2 ^ 64).toNat) 0 ds hds
  have hcnt : (sizeI % 2 ^ 64).toNat = sizeI.toNat := by
    norm_num
    omega
  have hdata : r.data = ds := by rw [← h]
  exact ⟨by omega, hstart2, by omega, by rw [hdata, hsz, hdl, hcnt]⟩

/-- Stripping the end-of-line characters never lengthens a line. -/
theorem stripEol_length_le (l : List Char) : (stripEol l).length ≤ l.length := by
  unfold stripEol
  rw [List.length_reverse]
  have h := (List.dropWhile_suffix
      (l := l.reverse) (fun c => c == '\n' || c == '\r')).sublist.length_le
  simpa using h

/-- Counterexample to claim C3 as stated: in the line `:<TAB>0000001FF`
the eight header characters are not all hex digits (the second line
character is a tab), so the claim requires a malformed-line failure;
but `sscanf`'s `%x` conversion skips leading white-space inside a
field, so the Reader parses the line into the record with size 0,
address 0, type 0x1F and checksum 0xFF. -/
theorem claim_C3_cex :
    read_record_from_line
        [':', '\t', '0', '0', '0', '0', '0', '0', '1', 'F', 'F'] =
      .ok ⟨0, 0, 31, [], 255⟩ ∧
    plainLineOk
        (stripEol [':', '\t', '0', '0', '0', '0', '0', '0', '1', 'F', 'F']) =
      false := by
  decide

/-- Claim C3, amended: (1) every line that satisfies the plain
characterisation — stripped length at least 11, leading `:`, the next 8
characters hex digits, total length exactly `11 + 2*size` for the
decoded size, and all remaining characters hex digits — is parsed by
the Reader into a record with that size and exactly `size` data bytes;
(2) conversely, a parsed record comes from a line (of at most 520
characters, the most `fgets` can deliver) whose stripped length is at
least 11, that starts with `:`, and whose stripped length is exactly
`11 + 2*size` for the parsed size; but the individual fields may also
parse under C `sscanf` `%x` semantics with leading white-space, a sign,
a `0x` prefix, or fewer than the full width of digits, so "all field
characters are hex digits" is not necessary; each violated check still
produces the corresponding malformed-line error string. -/
theorem claim_C3_amended (line : List Char) :
    (plainLineOk (stripEol line) = true →
      ∃ r, read_record_from_line line = .ok r ∧
        r.size = hexVal ((stripEol line).getD 1 ' ') * 16
          + hexVal ((stripEol line).getD 2 ' ') ∧
        r.data.length = r.size) ∧
    (∀ r, line.length ≤ 520 → read_record_from_line line = .ok r →
      11 ≤ (stripEol line).length ∧ (stripEol line).getD 0 ' ' = ':' ∧
      (stripEol line).length = 11 + 2 * r.size ∧
      r.data.length = r.size) := by
  constructor
  · intro h
    exact read_plain_ok (stripEol line) h
  · intro r hlen hok
    exact read_ok_necc (stripEol line) r
      (le_trans (stripEol_length_le line) hlen) hok

/-- Witness for C3 (amended): the standard terminating line
`:00000001FF` parses, and the necessary conditions hold for it. -/
theorem claim_C3_witness :
    11 ≤ (stripEol [':', '0', '0', '0', '0', '0', '0', '0', '1', 'F', 'F']).length ∧
    (stripEol [':', '0', '0', '0', '0', '0', '0', '0', '1', 'F', 'F']).getD 0 ' ' = ':' ∧
    (stripEol [':', '0', '0', '0', '0', '0', '0', '0', '1', 'F', 'F']).length =
      11 + 2 * (⟨0, 0, 1, [], 255⟩ : IhexRecord).size ∧
    (⟨0, 0, 1, [], 255⟩ : IhexRecord).data.length =
      (⟨0, 0, 1, [], 255⟩ : IhexRecord).size :=
  (claim_C3_amended [':', '0', '0', '0', '0', '0', '0', '0', '1', 'F', 'F']).2
    ⟨0, 0, 1, [], 255⟩ (by decide) (by decide)

/-! ## Driver-level helper lemmas -/

/-- The two ways the type dispatch can succeed: an in-range data record
(which writes its bytes and raises `highest_addr`), or the terminating
record (which only sets `last_record_read`). -/
theorem processRecord_ok_cases (cap n : Nat) (st : LoadSt) (r : IhexRecord)
    (st2 : LoadSt) (hp : processRecord cap n st r = .ok st2) :
    (r.type = 0 ∧ r.addr + r.size < cap ∧
      st2 = ⟨writeRecData st.buffer r,
             if st.highest < r.addr + r.size then r.addr + r.size else st.highest,
             st.lastRead⟩) ∨
    (r.type = 1 ∧ st2 = ⟨st.buffer, st.highest, true⟩) := by
  unfold processRecord at hp
  by_cases ht : r.type = 0
  · rw [if_pos ht] at hp
    by_cases hc : cap ≤ r.addr + r.size
    · rw [if_pos hc] at hp
      simp at hp
    · rw [if_neg hc] at hp
      simp only [Except.ok.injEq] at hp
      exact Or.inl ⟨ht, by omega, hp.symm⟩
  · rw [if_neg ht] at hp
    by_cases h1 : r.type = 1
    · rw [if_pos h1] at hp
      simp only [Except.ok.injEq] at hp
      exact Or.inr ⟨h1, hp.symm⟩
    · rw [if_neg h1] at hp
      split at hp <;> simp at hp

/-- Post-validation failures of the type dispatch all carry the line
number `n` they were given. -/
theorem processRecord_fail (cap n : Nat) (st : LoadSt) (r : IhexRecord)
    (h : (r.type = 0 ∧ cap ≤ r.addr + r.size) ∨ r.type = 2 ∨ r.type = 3 ∨
      r.type = 4 ∨ r.type = 5 ∨ 6 ≤ r.type) :
    ∃ e, processRecord cap n st r = .error e ∧ e.lineOf = some n := by
  unfold processRecord
  by_cases ht : r.type = 0
  · rcases h with ⟨_, hc⟩ | h2
    · rw [if_pos ht, if_pos hc]
      exact ⟨.addrTooHigh n, rfl, rfl⟩
    · omega
  · rw [if_neg ht]
    by_cases h1 : r.type = 1
    · omega
    · rw [if_neg h1]
      by_cases h25 : r.type = 2 ∨ r.type = 3 ∨ r.type = 4 ∨ r.type = 5
      · rw [if_pos h25]
        exact ⟨.only8bit n, rfl, rfl⟩
      · rw [if_neg h25]
        exact ⟨.invalidType n, rfl, rfl⟩

/-! Step equations for the read loop, one per control path. -/

theorem loadAux_nil (cap ln : Nat) (st : LoadSt) :
    loadAux cap st ln [] =
      if st.lastRead then ⟨none, st.buffer, st.highest⟩
      else ⟨some (.unexpectedEof (ln + 1)), st.buffer, cap⟩ := rfl

theorem loadAux_cons_lastRead (cap ln : Nat) (st : LoadSt) (l : List Char)
    (rest : List (List Char)) (hl : st.lastRead = true) :
    loadAux cap st ln (l :: rest) =
      ⟨some (.dataAfterLast (ln + 1)), st.buffer, cap⟩ := by
  simp [loadAux, hl]

theorem loadAux_cons_readerErr (cap ln : Nat) (st : LoadSt) (l : List Char)
    (rest : List (List Char)) (msg : String) (hl : st.lastRead = false)
    (hread : read_record_from_line l = .error msg) :
    loadAux cap st ln (l :: rest) =
      ⟨some (.readerError msg), st.buffer, cap⟩ := by
  simp [loadAux, hl, hread]

theorem loadAux_cons_invalid (cap ln : Nat) (st : LoadSt) (l : List Char)
    (rest : List (List Char)) (r : IhexRecord) (hl : st.lastRead = false)
    (hread : read_record_from_line l = .ok r)
    (hv : validate_record r = false) :
    loadAux cap st ln (l :: rest) =
      ⟨some (.invalidRecord (ln + 1)), st.buffer, cap⟩ := by
  simp [loadAux, hl, hread, hv]

theorem loadAux_cons_perr (cap ln : Nat) (st : LoadSt) (l : List Char)
    (rest : List (List Char)) (r : IhexRecord) (e : LoadError)
    (hl : st.lastRead = false) (hread : read_record_from_line l = .ok r)
    (hv : validate_record r = true)
    (hp : processRecord cap (ln + 1) st r = .error e) :
    loadAux cap st ln (l :: rest) = ⟨some e, st.buffer, cap⟩ := by
  simp [loadAux, hl, hread, hv, hp]

theorem loadAux_cons_ok (cap ln : Nat) (st : LoadSt) (l : List Char)
    (rest : List (List Char)) (r : IhexRecord) (st2 : LoadSt)
    (hl : st.lastRead = false) (hread : read_record_from_line l = .ok r)
    (hv : validate_record r = true)
    (hp : processRecord cap (ln + 1) st r = .ok st2) :
    loadAux cap st ln (l :: rest) = loadAux cap st2 (ln + 1) rest := by
  simp [loadAux, hl, hread, hv, hp]

/-- On success, the reported used length is the running maximum of the
data-record end addresses over the remaining lines, starting from the
current `highest_addr`; in particular it is never below the current
`highest_addr`. -/
theorem loadAux_ok_sz (cap : Nat) :
    ∀ (lines : List (List Char)) (st : LoadSt) (ln : Nat),
      (loadAux cap st ln lines).err = none →
      st.highest ≤ (loadAux cap st ln lines).bufferSz ∧
      (loadAux cap st ln lines).bufferSz =
        lines.foldl (fun m l => max m (lineDataEnd l)) st.highest := by
  intro lines
  induction lines with
  | nil =>
    intro st ln h
    rw [loadAux_nil] at h ⊢
    by_cases hl : st.lastRead = true
    · simp [hl]
    · simp [hl] at h
  | cons l rest ih =>
    intro st ln h
    by_cases hl : st.lastRead = true
    · rw [loadAux_cons_lastRead cap ln st l rest hl] at h
      simp at h
    · have hl2 : st.lastRead = false := by
        revert hl; cases st.lastRead <;> simp
      cases hread : read_record_from_line l with
      | error msg =>
        rw [loadAux_cons_readerErr cap ln st l rest msg hl2 hread] at h
        simp at h
      | ok r =>
        by_cases hv : validate_record r = true
        · cases hp : processRecord cap (ln + 1) st r with
          | error e =>
            rw [loadAux_cons_perr cap ln st l rest r e hl2 hread hv hp] at h
            simp at h
          | ok st2 =>
            rw [loadAux_cons_ok cap ln st l rest r st2 hl2 hread hv hp] at h ⊢
            have hih := ih st2 (ln + 1) h
            have hend : lineDataEnd l = if r.type = 0 then r.addr + r.size else 0 := by
              unfold lineDataEnd
              rw [hread]
            rcases processRecord_ok_cases cap (ln + 1) st r st2 hp with
              ⟨ht, _, hst2⟩ | ⟨ht, hst2⟩
            · have hh : st2.highest = max st.highest (lineDataEnd l) := by
                rw [hst2, hend, if_pos ht]
                show (if st.highest < r.addr + r.size then r.addr + r.size
                      else st.highest) = _
                rw [Nat.max_def]
                split_ifs <;> omega
              have hmono : st.highest ≤ st2.highest := by
                rw [hh]; exact le_max_left _ _
              rw [List.foldl_cons, ← hh]
              exact ⟨le_trans hmono hih.1, hih.2⟩
            · have hh : st2.highest = max st.highest (lineDataEnd l) := by
                rw [hst2, hend, if_neg (by omega : ¬ r.type = 0)]
                show st.highest = max st.highest 0
                simp
              have hmono : st.highest ≤ st2.highest := by
                rw [hh]; exact le_max_left _ _
              rw [List.foldl_cons, ← hh]
              exact ⟨le_trans hmono hih.1, hih.2⟩
        · have hv2 : validate_record r = false := by
            revert hv; cases validate_record r <;> simp
          rw [loadAux_cons_invalid cap ln st l rest r hl2 hread hv2] at h
          simp at h

/-- On every error return, `*buffer_sz` still holds the capacity. -/
theorem loadAux_err_sz (cap : Nat) :
    ∀ (lines : List (List Char)) (st : LoadSt) (ln : Nat),
      (loadAux cap st ln lines).err.isSome = true →
      (loadAux cap st ln lines).bufferSz = cap := by
  intro lines
  induction lines with
  | nil =>
    intro st ln h
    rw [loadAux_nil] at h ⊢
    by_cases hl : st.lastRead = true
    · simp [hl] at h
    · simp [hl]
  | cons l rest ih =>
    intro st ln h
    by_cases hl : st.lastRead = true
    · rw [loadAux_cons_lastRead cap ln st l rest hl]
    · have hl2 : st.lastRead = false := by
        revert hl; cases st.lastRead <;> simp
      cases hread : read_record_from_line l with
      | error msg => rw [loadAux_cons_readerErr cap ln st l rest msg hl2 hread]
      | ok r =>
        by_cases hv : validate_record r = true
        · cases hp : processRecord cap (ln + 1) st r with
          | error e => rw [loadAux_cons_perr cap ln st l rest r e hl2 hread hv hp]
          | ok st2 =>
            rw [loadAux_cons_ok cap ln st l rest r st2 hl2 hread hv hp] at h ⊢
            exact ih st2 (ln + 1) h
        · have hv2 : validate_record r = false := by
            revert hv; cases validate_record r <;> simp
          rw [loadAux_cons_invalid cap ln st l rest r hl2 hread hv2]

/-- A validated in-range data record is accepted by the dispatch and
leaves `last_record_read` unchanged. -/
theorem processRecord_data_ok (cap n : Nat) (st : LoadSt) (r : IhexRecord)
    (ht : r.type = 0) (hin : r.addr + r.size < cap) :
    processRecord cap n st r =
      .ok ⟨writeRecData st.buffer r,
           if st.highest < r.addr + r.size then r.addr + r.size else st.highest,
           st.lastRead⟩ := by
  unfold processRecord
  rw [if_pos ht, if_neg (by omega)]

/-- The terminating record only sets `last_record_read`. -/
theorem processRecord_term_ok (cap n : Nat) (st : LoadSt) (r : IhexRecord)
    (ht : r.type = 1) :
    processRecord cap n st r = .ok ⟨st.buffer, st.highest, true⟩ := by
  unfold processRecord
  rw [if_neg (by omega), if_pos ht]

/-- A run of good data records followed by end of input fails with the
unexpected end-of-file error, numbered one past the last line. -/
theorem loadAux_eof (cap : Nat) :
    ∀ (lines : List (List Char)) (st : LoadSt) (ln : Nat),
      st.lastRead = false → (∀ l ∈ lines, lineOkData cap l) →
      (loadAux cap st ln lines).err =
        some (.unexpectedEof (ln + lines.length + 1)) := by
  intro lines
  induction lines with
  | nil =>
    intro st ln hl _
    rw [loadAux_nil]
    simp [hl]
  | cons l rest ih =>
    intro st ln hl hok
    obtain ⟨r, hread, hv, ht, hin⟩ := hok l (List.mem_cons_self _ _)
    rw [loadAux_cons_ok cap ln st l rest r _ hl hread hv
        (processRecord_data_ok cap (ln + 1) st r ht hin)]
    have hih := ih ⟨writeRecData st.buffer r,
        if st.highest < r.addr + r.size then r.addr + r.size else st.highest,
        st.lastRead⟩ (ln + 1) hl
      (fun p hp => hok p (List.mem_cons_of_mem _ hp))
    rw [hih]
    have : ln + 1 + rest.length + 1 = ln + (l :: rest).length + 1 := by
      simp [List.length_cons]
      omega
    rw [this]

/-- A run of good data records closed by a valid terminating record and
end of input succeeds. -/
theorem loadAux_wf (cap : Nat) :
    ∀ (pre : List (List Char)) (st : LoadSt) (ln : Nat) (term : List Char)
      (r : IhexRecord),
      st.lastRead = false → (∀ l ∈ pre, lineOkData cap l) →
      read_record_from_line term = .ok r → validate_record r = true →
      r.type = 1 →
      (loadAux cap st ln (pre ++ [term])).err = none := by
  intro pre
  induction pre with
  | nil =>
    intro st ln term r hl hpre hread hv ht
    rw [List.nil_append]
    rw [loadAux_cons_ok cap ln st term [] r _ hl hread hv
        (processRecord_term_ok cap (ln + 1) st r ht)]
    rw [loadAux_nil]
    simp
  | cons p pre2 ih =>
    intro st ln term r hl hpre hread hv ht
    obtain ⟨r2, hr2, hv2, ht2, hin2⟩ := hpre p (List.mem_cons_self _ _)
    rw [List.cons_append]
    rw [loadAux_cons_ok cap ln st p (pre2 ++ [term]) r2 _ hl hr2 hv2
        (processRecord_data_ok cap (ln + 1) st r2 ht2 hin2)]
    exact ih _ (ln + 1) term r hl
      (fun q hq => hpre q (List.mem_cons_of_mem _ hq)) hread hv ht

/-- After a run of good data records, a line whose record fails the
Validator or the Assembler produces an error carrying exactly the
1-based number of that line. -/
theorem loadAux_fail_line (cap : Nat) :
    ∀ (pre : List (List Char)) (st : LoadSt) (ln : Nat) (l : List Char)
      (rest : List (List Char)) (r : IhexRecord),
      st.lastRead = false → (∀ p ∈ pre, lineOkData cap p) →
      read_record_from_line l = .ok r → recordFailsPostRead cap r →
      (loadAux cap st ln (pre ++ l :: rest)).errLine =
        some (some (ln + pre.length + 1)) := by
  intro pre
  induction pre with
  | nil =>
    intro st ln l rest r hl hpre hread hfail
    rw [List.nil_append]
    rcases hfail with hv | ⟨hv, hdisp⟩
    · rw [loadAux_cons_invalid cap ln st l rest r hl hread hv]
      simp [CallResult.errLine, LoadError.lineOf]
    · obtain ⟨e, hpe, hline⟩ := processRecord_fail cap (ln + 1) st r hdisp
      rw [loadAux_cons_perr cap ln st l rest r e hl hread hv hpe]
      simp [CallResult.errLine, hline]
  | cons p pre2 ih =>
    intro st ln l rest r hl hpre hread hfail
    obtain ⟨r2, hr2, hv2, ht2, hin2⟩ := hpre p (List.mem_cons_self _ _)
    rw [List.cons_append]
    rw [loadAux_cons_ok cap ln st p (pre2 ++ l :: rest) r2 _ hl hr2 hv2
        (processRecord_data_ok cap (ln + 1) st r2 ht2 hin2)]
    have hih := ih ⟨writeRecData st.buffer r2,
        if st.highest < r2.addr + r2.size then r2.addr + r2.size else st.highest,
        st.lastRead⟩ (ln + 1) l rest r hl
      (fun q hq => hpre q (List.mem_cons_of_mem _ hq)) hread hfail
    rw [hih]
    have : ln + 1 + pre2.length + 1 = ln + (p :: pre2).length + 1 := by
      simp [List.length_cons]
      omega
    rw [this]

/-! ## Claim C5: what the reported used length is -/

/-- Counterexample to claim C5 as stated: a checksum-valid data record
with size 0 at address 4 (line `:000004 00 FC`, written without spaces)
writes no byte at all, yet the loader reports used length 4.  The
claim demands that `high_water_mark` equal the highest address+1
actually written by a data record so far, which is 0 for both lines of
this input (nothing is ever written; the buffer comes back untouched),
yet the reported length is 4. -/
theorem claim_C5_cex :
    load_ihex_buffer
        [[':', '0', '0', '0', '0', '0', '4', '0', '0', 'F', 'C'],
         [':', '0', '0', '0', '0', '0', '0', '0', '1', 'F', 'F']]
        [1, 2, 3, 4, 5, 6, 7, 8] 8 =
      ⟨none, [1, 2, 3, 4, 5, 6, 7, 8], 4⟩ ∧
    lineWrittenEnd [':', '0', '0', '0', '0', '0', '4', '0', '0', 'F', 'C'] = 0 ∧
    lineWrittenEnd [':', '0', '0', '0', '0', '0', '0', '0', '1', 'F', 'F'] = 0 := by
  decide

/-- Claim C5, amended: `high_water_mark` starts at 0, is never lowered
(the final reported length is at least the current value at any point
of the run), and after processing the remaining lines successfully the
reported used length is the running maximum of the end addresses
(`address + size`) of all data records — including size-0 data records,
which write nothing but still raise the mark to their end address. -/
theorem claim_C5_amended (cap : Nat) (lines : List (List Char)) (st : LoadSt)
    (ln : Nat) (h : (loadAux cap st ln lines).err = none) :
    st.highest ≤ (loadAux cap st ln lines).bufferSz ∧
    (loadAux cap st ln lines).bufferSz =
      lines.foldl (fun m l => max m (lineDataEnd l)) st.highest :=
  loadAux_ok_sz cap lines st ln h

/-- Witness for C5 (amended), at the bare-terminator input. -/
theorem claim_C5_witness :
    (0 : Nat) ≤ (loadAux 2 ⟨[0, 0], 0, false⟩ 0
        [[':', '0', '0', '0', '0', '0', '0', '0', '1', 'F', 'F']]).bufferSz ∧
    (loadAux 2 ⟨[0, 0], 0, false⟩ 0
        [[':', '0', '0', '0', '0', '0', '0', '0', '1', 'F', 'F']]).bufferSz = 0 :=
  ⟨(claim_C5_amended 2
      [[':', '0', '0', '0', '0', '0', '0', '0', '1', 'F', 'F']]
      ⟨[0, 0], 0, false⟩ 0 (by decide)).1,
   ((claim_C5_amended 2
      [[':', '0', '0', '0', '0', '0', '0', '0', '1', 'F', 'F']]
      ⟨[0, 0], 0, false⟩ 0 (by decide)).2).trans (by decide)⟩

/-! ## Claim C6: end of input before the terminating record -/

/-- Claim C6: an input that ends before any terminating record has been
seen — in particular any sequence of good data records, and the empty
input — fails with the unexpected end-of-file error (carrying, in the
named source file, the line number one past the last line). -/
theorem claim_C6 (lines : List (List Char)) (buf : List Nat) (cap : Nat)
    (h : ∀ l ∈ lines, lineOkData cap l) :
    (load_ihex_buffer lines buf cap).err =
      some (.unexpectedEof (lines.length + 1)) := by
  have hh := loadAux_eof cap lines ⟨buf, 0, false⟩ 0 rfl h
  simpa using hh

/-- Witness for C6: one good data record and then end of input. -/
theorem claim_C6_witness :
    (load_ihex_buffer
        [[':', '0', '1', '0', '0', '0', '0', '0', '0', '4', '1', 'B', 'E']]
        [0, 0] 2).err = some (.unexpectedEof 2) :=
  claim_C6 [[':', '0', '1', '0', '0', '0', '0', '0', '0', '4', '1', 'B', 'E']]
    [0, 0] 2
    (by
      intro l hl
      simp only [List.mem_singleton] at hl
      subst hl
      exact ⟨⟨1, 0, 0, [65], 190⟩, by decide, by decide, rfl, by decide⟩)

/-! ## Claim C7: nothing is allowed after the terminating record -/

/-- Claim C7: once `last_record_read` is set, obtaining any further
line — whatever its content — makes the loader fail immediately with
the trailing-data error for that line; the line is not parsed,
validated, or written (the buffer is returned exactly as it was), and
the flag is never cleared (the load ends at this error or at end of
input). -/
theorem claim_C7 (cap ln : Nat) (st : LoadSt) (l : List Char)
    (rest : List (List Char)) (h : st.lastRead = true) :
    loadAux cap st ln (l :: rest) =
      ⟨some (.dataAfterLast (ln + 1)), st.buffer, cap⟩ :=
  loadAux_cons_lastRead cap ln st l rest h

/-- Witness for C7: a garbage line after termination is rejected with
the trailing-data error and the buffer is untouched. -/
theorem claim_C7_witness :
    loadAux 2 ⟨[5, 5], 1, true⟩ 3 [['z']] =
      ⟨some (.dataAfterLast 4), [5, 5], 2⟩ :=
  claim_C7 2 3 ⟨[5, 5], 1, true⟩ ['z'] [] rfl

/-! ## Claim C8: well-formed inputs succeed -/

/-- Claim C8: an input of checksum-valid in-range data records followed
by exactly one valid terminating record (last) succeeds, and the
reported used length is the final `high_water_mark` (the running
maximum of the data-record end addresses). -/
theorem claim_C8 (cap : Nat) (buf : List Nat) (pre : List (List Char))
    (term : List Char) (r : IhexRecord)
    (hpre : ∀ l ∈ pre, lineOkData cap l)
    (hterm : read_record_from_line term = .ok r)
    (hv : validate_record r = true) (ht : r.type = 1) :
    (load_ihex_buffer (pre ++ [term]) buf cap).err = none ∧
    (load_ihex_buffer (pre ++ [term]) buf cap).bufferSz =
      (pre ++ [term]).foldl (fun m l => max m (lineDataEnd l)) 0 := by
  have herr := loadAux_wf cap pre ⟨buf, 0, false⟩ 0 term r rfl hpre hterm hv ht
  exact ⟨herr, (loadAux_ok_sz cap (pre ++ [term]) ⟨buf, 0, false⟩ 0 herr).2⟩

/-- Witness for C8: the single line `:00000001FF` succeeds with used
length 0. -/
theorem claim_C8_witness :
    (load_ihex_buffer [[':', '0', '0', '0', '0', '0', '0', '0', '1', 'F', 'F']]
        [0, 0, 0, 0] 4).err = none ∧
    (load_ihex_buffer [[':', '0', '0', '0', '0', '0', '0', '0', '1', 'F', 'F']]
        [0, 0, 0, 0] 4).bufferSz = 0 :=
  ⟨(claim_C8 4 [0, 0, 0, 0] [] [':', '0', '0', '0', '0', '0', '0', '0', '1', 'F', 'F']
      ⟨0, 0, 1, [], 255⟩ (by simp) (by decide) (by decide) rfl).1,
   ((claim_C8 4 [0, 0, 0, 0] [] [':', '0', '0', '0', '0', '0', '0', '0', '1', 'F', 'F']
      ⟨0, 0, 1, [], 255⟩ (by simp) (by decide) (by decide) rfl).2).trans (by decide)⟩

/-! ## Claim C9: which errors carry the failing line number -/

/-- Counterexample to claim C9 as stated: the loader fails on the
malformed line `zz` with the Reader's static message, which carries no
line number at all (the C code returns the reader's string verbatim,
unlike every other failure, which goes through `format_error` with
`line_number`). -/
theorem claim_C9_cex :
    (load_ihex_buffer [['z', 'z']] [0, 0] 2).err =
      some (.readerError "Invalid line length") ∧
    LoadError.lineOf (.readerError "Invalid line length") = none := by
  decide

/-- Claim C9, amended: a failure detected by the Validator or the
Assembler (checksum mismatch, address out of range, unsupported or
invalid record type) is reported with exactly the 1-based number of the
line it was detected on (the driver's trailing-data and end-of-input
errors also carry their detection line); but a line rejected by the
Reader produces a static malformed-line message that carries no line
number. -/
theorem claim_C9_amended (cap : Nat) (buf : List Nat) (pre : List (List Char))
    (l : List Char) (rest : List (List Char)) (r : IhexRecord)
    (hpre : ∀ p ∈ pre, lineOkData cap p)
    (hread : read_record_from_line l = .ok r)
    (hfail : recordFailsPostRead cap r) :
    (load_ihex_buffer (pre ++ l :: rest) buf cap).errLine =
      some (some (pre.length + 1)) := by
  have hh := loadAux_fail_line cap pre ⟨buf, 0, false⟩ 0 l rest r rfl hpre hread hfail
  simpa using hh

/-- Witness for C9 (amended): the checksum-invalid line `:0000000001`
fails at line 1, and the error carries that line number. -/
theorem claim_C9_witness :
    (load_ihex_buffer
        [[':', '0', '0', '0', '0', '0', '0', '0', '0', '0', '1']]
        [0, 0] 2).errLine = some (some 1) :=
  claim_C9_amended 2 [0, 0] []
    [':', '0', '0', '0', '0', '0', '0', '0', '0', '0', '1'] []
    ⟨0, 0, 0, [], 1⟩ (by simp) (by decide) (Or.inl (by decide))

/-! ## Claim C10: the in/out size is written only on success -/

/-- Claim C10: on every failing load the in/out `*buffer_sz` still
holds the capacity it was called with; only on success is it
overwritten, with the final `high_water_mark`. -/
theorem claim_C10 (lines : List (List Char)) (buf : List Nat) (cap : Nat) :
    ((load_ihex_buffer lines buf cap).err.isSome = true →
      (load_ihex_buffer lines buf cap).bufferSz = cap) ∧
    ((load_ihex_buffer lines buf cap).err = none →
      (load_ihex_buffer lines buf cap).bufferSz =
        lines.foldl (fun m l => max m (lineDataEnd l)) 0) :=
  ⟨loadAux_err_sz cap lines ⟨buf, 0, false⟩ 0,
   fun h => (loadAux_ok_sz cap lines ⟨buf, 0, false⟩ 0 h).2⟩

/-- Witness for C10: a failing load (an empty line is malformed) leaves
the size parameter at the capacity, 2. -/
theorem claim_C10_witness :
    (load_ihex_buffer [[]] [0, 0] 2).bufferSz = 2 :=
  (claim_C10 [[]] [0, 0] 2).1 (by decide)

end TekFirmware
